import Mathlib

/-!
# DarkDNA/soy: template registration, message annotation, catalog extraction

A shallow embedding of

* `soy.go` (`Tofu`, `New`, `Tofu.Parse`, `Tofu.Template`),
* `parsepasses/msgids.go` (`ProcessMessages`, `processTemplateMsgs`),
* `soymsg/pomsg/xgettext-soy/main.go` (`extractor.extract` and the extraction
  part of `main`),

followed by theorems about them.

Conventions of the embedding.

* Go mutates nodes, maps and the `po.File` in place; here every function takes
  the old state and returns the new one.
* A Go `error` is a `String` (its message), `nil` is `none`.
* A run-time panic and `os.Exit(1)` are results of their own (`Panic`, `Abort`),
  never silently dropped.
* Functions of packages that are not part of the three files (the parser,
  `soymsg.SetPlaceholdersAndID`, `pomsg.Validate`, `pomsg.Msgid`,
  `pomsg.MsgidPlural`, the registry lookups) are parameters.
-/

namespace Soy

/-! ## Syntax tree (package `ast` / `parse`) -/

namespace ast

/-- Modelled from the spec: the declaration of the message node type is not in
the three files. The fields are those of the data model,
`MessageNode{Description, Meaning, ID(computed), Placeholders(computed), Body}`;
`Body` holds `node.Body.Children()`, the ordered children of the body. -/
structure MsgNodeOf (α : Type) where
  ID : Nat
  Meaning : String
  Desc : String
  Placeholders : List (String × String)
  Body : List α

/-- Modelled from the spec: `TemplateNode{Name, Body}`; `Body` holds the ordered
children that the node exposes through `Children()`. -/
structure TemplateNodeOf (α : Type) where
  Name : String
  Body : List α

/-- Modelled from the spec: the node kinds the three files distinguish by type
switch or type assertion. `ParentNode` stands for every other node kind that
implements `Children()`, `LeafNode` for every other node kind that does not. -/
inductive Node where
  | NamespaceNode (Name : String)
  | TemplateNode (t : TemplateNodeOf Node)
  | MsgNode (m : MsgNodeOf Node)
  | MsgPluralNode (VarName : String) (Children : List Node)
  | ParentNode (Kind : String) (Children : List Node)
  | LeafNode (Kind : String)

abbrev MsgNode := MsgNodeOf Node

abbrev TemplateNode := TemplateNodeOf Node

end ast

/-! ## `soy.go` -/

namespace soy

open ast

/-- The Go type `map[string]*parse.TemplateNode` when it is not nil: a key is
present exactly when the lookup is `some`. -/
abbrev TemplateMap := String → Option TemplateNode

/-- The map after `m[key] = tmpl`. -/
def TemplateMap.set (m : TemplateMap) (key : String) (tmpl : TemplateNode) : TemplateMap :=
  fun k => if k = key then some tmpl else m k

/-- Go `type Tofu struct` with its one field `templates`, a
`map[string]*parse.TemplateNode`; `templates = none` is the nil map of the zero
value. -/
structure Tofu where
  templates : Option TemplateMap

/-- Go `func New() Tofu`: a `Tofu` with an allocated, empty map. -/
def New : Tofu := ⟨some (fun _ => none)⟩

/-- Go `type Template struct` with its one field `node`, a
`*parse.TemplateNode`; `none` is the nil pointer of the zero value. -/
structure Template where
  node : Option TemplateNode

/-- Run-time panics of `Tofu.Parse`. -/
inductive Panic where
  | assignmentToNilMap

/-- The loop of `Tofu.Parse` (lines 37-41) over `tree.Root.Nodes[1:]`: every
`*parse.TemplateNode` is stored under `namespace.Name + "." + tmpl.Name`, every
other node is skipped. Storing into the nil map panics. -/
def collectTemplates (nsName : String) : List Node → Tofu → Except Panic Tofu
  | [], tofu => .ok tofu
  | .TemplateNode tmpl :: rest, tofu =>
    match tofu.templates with
    | none => .error .assignmentToNilMap
    | some m => collectTemplates nsName rest ⟨some (m.set (nsName ++ "." ++ tmpl.Name) tmpl)⟩
  | _ :: rest, tofu => collectTemplates nsName rest tofu

/-- Go `func (tofu Tofu) Parse(input string) error`. `parser input` is
`parse.Parse("", input)`: an error, or `tree.Root.Nodes`. The result is the
`Tofu` after the call together with the returned error. -/
def Tofu.Parse (parser : String → Except String (List Node)) (tofu : Tofu) (input : String) :
    Except Panic (Tofu × Option String) :=
  match parser input with
  | .error err => .ok (tofu, some err)
  | .ok nodes =>
    match nodes with
    | [] => .ok (tofu, some "empty")
    | .NamespaceNode nsName :: rest =>
      match collectTemplates nsName rest tofu with
      | .error p => .error p
      | .ok tofu' => .ok (tofu', none)
    | _ :: _ => .ok (tofu, some "input must begin with a namespace declaration")

/-- Go `func (tofu Tofu) Template(name string) (tmpl Template, ok bool)`. Reading
the nil map finds nothing. -/
def Tofu.Template (tofu : Tofu) (name : String) : Template × Bool :=
  match tofu.templates with
  | none => (⟨none⟩, false)
  | some m =>
    match m name with
    | none => (⟨none⟩, false)
    | some node => (⟨some node⟩, true)

end soy

/-! ## Package `template`: the registry used by the passes -/

namespace template

open ast

/-- Go `template.Template`, of which the passes use the field `Node`. -/
structure Template where
  Node : TemplateNode

/-- Go `template.Registry`: the sequence `Templates` and the two lookups the
extractor calls. The lookups are not in the three files and are fields here. -/
structure Registry where
  Templates : List Template
  SourceFile : String → String
  LineNumber : String → Node → Int

end template

/-! ## `parsepasses/msgids.go` -/

namespace parsepasses

open ast

mutual
/-- Go `func processTemplateMsgs(node ast.Node)`. The node is returned as it is
after the call. `SetPlaceholdersAndID` is `soymsg.SetPlaceholdersAndID`. -/
def processTemplateMsgs (SetPlaceholdersAndID : MsgNode → MsgNode) : Node → Node
  | .MsgNode node => .MsgNode (SetPlaceholdersAndID node)
  | .TemplateNode ⟨name, body⟩ => .TemplateNode ⟨name, processChildren SetPlaceholdersAndID body⟩
  | .MsgPluralNode v children => .MsgPluralNode v (processChildren SetPlaceholdersAndID children)
  | .ParentNode k children => .ParentNode k (processChildren SetPlaceholdersAndID children)
  | .NamespaceNode n => .NamespaceNode n
  | .LeafNode k => .LeafNode k
/-- The loop `for _, child := range parent.Children()` of `processTemplateMsgs`. -/
def processChildren (SetPlaceholdersAndID : MsgNode → MsgNode) : List Node → List Node
  | [] => []
  | child :: rest =>
    processTemplateMsgs SetPlaceholdersAndID child :: processChildren SetPlaceholdersAndID rest
end

/-- Go `func ProcessMessages(reg template.Registry)`: the registry as it is after
the call (the nodes of `reg.Templates` are shared with the caller). -/
def ProcessMessages (SetPlaceholdersAndID : MsgNode → MsgNode) (reg : template.Registry) :
    template.Registry :=
  { reg with
    Templates := reg.Templates.map fun t =>
      match processTemplateMsgs SetPlaceholdersAndID (.TemplateNode t.Node) with
      | .TemplateNode node => { t with Node := node }
      | _ => t }

end parsepasses

/-! ## Package `po` (the catalog records) -/

namespace po

/-- Go `po.Comment`, the two fields the extractor fills. -/
structure Comment where
  ExtractedComments : List String
  References : List String
  deriving DecidableEq

/-- Go `po.Message`. -/
structure Message where
  Comment : Comment
  Ctxt : String
  Id : String
  IdPlural : String
  Str : List String
  deriving DecidableEq

/-- Go `po.File`, of which the extractor uses `Messages`. -/
structure File where
  Messages : List Message
  deriving DecidableEq

end po

/-! ## `soymsg/pomsg/xgettext-soy/main.go` -/

namespace xgettext

open ast

/-- The functions of package `pomsg` that `extract` calls: `Validate` returns
`nil` (`none`) or an error, `Msgid` and `MsgidPlural` return strings. -/
structure Pomsg where
  Validate : MsgNode → Option String
  Msgid : MsgNode → String
  MsgidPlural : MsgNode → String

/-- Go `type extractor struct`. `file` is the `po.File` that `e.file` points to,
`tmpl` the template node that `e.tmpl` points to (`main` sets it before every
call of `extract`). -/
structure extractor where
  file : po.File
  tmpl : TemplateNode
  registry : template.Registry

/-- The ways a run ends without reaching `e.file.WriteTo(os.Stdout)`:
`exit(err)` prints `err` and calls `os.Exit(1)`; indexing an empty slice is a
run-time panic. -/
inductive Abort where
  | exit (err : String)
  | indexOutOfRange
  deriving DecidableEq

mutual
/-- Go `func (e extractor) extract(node ast.Node)`. The result is the `po.File`
behind `e.file` after the call, or the way the process ended. -/
def extract (pomsg : Pomsg) (e : extractor) : Node → Except Abort po.File
  | .MsgNode node =>
    match pomsg.Validate node with
    | some err => .error (.exit err)
    | none =>
      match node.Body with
      | [] => .error .indexOutOfRange
      | first :: _ =>
        let pluralVar : String :=
          match first with
          | .MsgPluralNode VarName _ => " var=" ++ VarName
          | _ => ""
        .ok ⟨e.file.Messages ++ [{
          Comment := {
            ExtractedComments := [node.Desc]
            References := [
              e.registry.SourceFile e.tmpl.Name ++ ":" ++
                toString (e.registry.LineNumber e.tmpl.Name (.MsgNode node)),
              "id=" ++ toString node.ID ++ pluralVar] }
          Ctxt := node.Meaning
          Id := pomsg.Msgid node
          IdPlural := pomsg.MsgidPlural node
          Str := [pomsg.Msgid node, pomsg.MsgidPlural node] }]⟩
  | .TemplateNode ⟨_, body⟩ => extractChildren pomsg e body
  | .MsgPluralNode _ children => extractChildren pomsg e children
  | .ParentNode _ children => extractChildren pomsg e children
  | .NamespaceNode _ => .ok e.file
  | .LeafNode _ => .ok e.file
/-- The loop `for _, child := range node.Children()` of `extract`. -/
def extractChildren (pomsg : Pomsg) (e : extractor) : List Node → Except Abort po.File
  | [] => .ok e.file
  | child :: rest =>
    match extract pomsg e child with
    | .error a => .error a
    | .ok file => extractChildren pomsg { e with file := file } rest
end

/-- The loop of `main`, lines 55-58:
`for _, t := range registry.Templates { e.tmpl = t.Node; e.extract(t.Node) }`,
started with `file` behind `e.file`. -/
def extractTemplates (pomsg : Pomsg) (registry : template.Registry) (file : po.File) :
    List template.Template → Except Abort po.File
  | [] => .ok file
  | t :: rest =>
    match extract pomsg ⟨file, t.Node, registry⟩ (.TemplateNode t.Node) with
    | .error a => .error a
    | .ok file' => extractTemplates pomsg registry file' rest

/-- Go `func main()` from line 49 on, for a registry that is already filled:
`ProcessMessages`, the extraction loop starting from an empty `po.File`, then
`e.file.WriteTo(os.Stdout)`. `.ok file` is the document handed to `WriteTo`; on
`.error` the process has ended before `WriteTo`. -/
def main (pomsg : Pomsg) (SetPlaceholdersAndID : MsgNode → MsgNode)
    (registry : template.Registry) : Except Abort po.File :=
  let registry := parsepasses.ProcessMessages SetPlaceholdersAndID registry
  extractTemplates pomsg registry ⟨[]⟩ registry.Templates

end xgettext

/-! ## Descriptions the theorems compare the code with -/

namespace spec

open ast

/-- The key under which the last template node of `nodes` with that key is
found, the order being that of the file: what a file contributes to the
template map. -/
def registered (nsName : String) : List Node → String → Option TemplateNode
  | [], _ => none
  | .TemplateNode t :: rest, key =>
    match registered nsName rest key with
    | some t' => some t'
    | none => if key = nsName ++ "." ++ t.Name then some t else none
  | _ :: rest, key => registered nsName rest key

mutual
/-- The message nodes reachable from `node` through parent-capable nodes without
passing through another message node, in depth-first pre-order. -/
def msgNodes : Node → List MsgNode
  | .MsgNode m => [m]
  | .TemplateNode ⟨_, body⟩ => msgNodesOfChildren body
  | .MsgPluralNode _ children => msgNodesOfChildren children
  | .ParentNode _ children => msgNodesOfChildren children
  | .NamespaceNode _ => []
  | .LeafNode _ => []
/-- The message nodes of a sequence of siblings: those of the first child's
subtree, then those of the second child's, and so on. -/
def msgNodesOfChildren : List Node → List MsgNode
  | [] => []
  | child :: rest => msgNodes child ++ msgNodesOfChildren rest
end

/-- The reference `"id=<numericID>"`, suffixed with `" var=<pluralVar>"` when the
body's first child is a plural node. -/
def idReference (m : MsgNode) : String :=
  match m.Body.head? with
  | some (.MsgPluralNode VarName _) => "id=" ++ toString m.ID ++ " var=" ++ VarName
  | _ => "id=" ++ toString m.ID

/-- The catalog entry of the spec for message `m` of template `tmpl`. -/
def catalogEntry (pomsg : xgettext.Pomsg) (registry : template.Registry)
    (tmpl : TemplateNode) (m : MsgNode) : po.Message :=
  { Comment := {
      ExtractedComments := [m.Desc]
      References := [
        registry.SourceFile tmpl.Name ++ ":" ++
          toString (registry.LineNumber tmpl.Name (.MsgNode m)),
        idReference m] }
    Ctxt := m.Meaning
    Id := pomsg.Msgid m
    IdPlural := pomsg.MsgidPlural m
    Str := [pomsg.Msgid m, pomsg.MsgidPlural m] }

/-- The messages of the registered templates in traversal order: template order
first, depth-first pre-order within each template. Each message is paired with
its template. -/
def traversal (templates : List template.Template) : List (TemplateNode × MsgNode) :=
  templates.flatMap fun t => (msgNodes (.TemplateNode t.Node)).map fun m => (t.Node, m)

/-- A message the extractor can turn into an entry: validation passes and the
body has a first child. -/
def Extractable (pomsg : xgettext.Pomsg) (m : MsgNode) : Prop :=
  pomsg.Validate m = none ∧ m.Body ≠ []

end spec

/-! ## Concrete inputs used by the sanity checks -/

namespace sample

open ast soy

/-- A template `t` whose body is the text `first`. -/
def first : TemplateNode := ⟨"t", [.LeafNode "first"]⟩

/-- A template `t` whose body is the text `second`. -/
def second : TemplateNode := ⟨"t", [.LeafNode "second"]⟩

/-- A template `u`. -/
def other : TemplateNode := ⟨"u", []⟩

/-- A parser: `"dup"` is a file of namespace `ns` that declares template `t`
twice, `"one"` and `"two"` are files of namespace `ns` that each declare `t`,
`"headless"` is a file whose first node is a template, `"mixed"` declares `t`,
a non-template node and `u`; every other input has no nodes. -/
def parser (input : String) : Except String (List Node) :=
  if input = "dup" then .ok [.NamespaceNode "ns", .TemplateNode first, .TemplateNode second]
  else if input = "one" then .ok [.NamespaceNode "ns", .TemplateNode first]
  else if input = "two" then .ok [.NamespaceNode "ns", .TemplateNode second]
  else if input = "headless" then .ok [.TemplateNode first, .NamespaceNode "ns"]
  else if input = "mixed" then
    .ok [.NamespaceNode "ns", .TemplateNode first, .LeafNode "doc", .TemplateNode other]
  else .ok []

/-- A `Tofu` that holds one template under the key `a.b`. -/
def holding : Tofu := ⟨some (TemplateMap.set (fun _ => none) "a.b" other)⟩

/-- The `Tofu` that holds `first` under `ns.t` and `other` under `ns.u`. -/
def afterMixed : Tofu :=
  ⟨some (TemplateMap.set (TemplateMap.set (fun _ => none) "ns.t" first) "ns.u" other)⟩

/-- Whether a node is a plural node. -/
def isPlural : Node → Bool
  | .MsgPluralNode _ _ => true
  | _ => false

/-- The text of a text node, empty for every other node. -/
def text : Node → String
  | .LeafNode k => k
  | _ => ""

/-- A `pomsg` in which validation rejects a message that has a plural node
after its first child, the msgid is the text of the body and the plural msgid
is empty. -/
def pomsg : xgettext.Pomsg where
  Validate m :=
    if m.Body.tail.any isPlural then some "plural node must be the sole child" else none
  Msgid m := String.join (m.Body.map text)
  MsgidPlural _ := ""

/-- An id/placeholder algorithm: the id is computed from the description, the
placeholder map is empty. -/
def annotate (m : MsgNode) : MsgNode :=
  { m with ID := 100 + m.Desc.length, Placeholders := [] }

/-- Message `A`. -/
def msgA : MsgNode := ⟨0, "", "a", [], [.LeafNode "A"]⟩

/-- Message `B`, which has a message inside its body. -/
def msgB : MsgNode := ⟨0, "", "bb", [], [.LeafNode "B", .MsgNode msgA]⟩

/-- Message `C`. -/
def msgC : MsgNode := ⟨0, "verb", "ccc", [], [.LeafNode "C"]⟩

/-- A plural message with id 7 over the variable `count`. -/
def msgPlural : MsgNode :=
  ⟨7, "", "items", [], [.MsgPluralNode "count" [.LeafNode "one", .LeafNode "many"]]⟩

/-- A message without plural whose body has no children. -/
def msgEmpty : MsgNode := ⟨0, "", "nothing", [], []⟩

/-- A message that validation rejects: a plural node after the first child. -/
def msgInvalid : MsgNode := ⟨0, "", "bad", [], [.LeafNode "x", .MsgPluralNode "n" []]⟩

/-- A registry with the given template nodes, whose lookups answer `app.soy`
and line 3. -/
def registryOf (nodes : List TemplateNode) : template.Registry where
  Templates := nodes.map fun n => ⟨n⟩
  SourceFile _ := "app.soy"
  LineNumber _ _ := 3

/-- Template `abc`: the sibling messages `A`, `B`, `C`, with `C` below an
`if`. -/
def tmplABC : TemplateNode :=
  ⟨"abc", [.MsgNode msgA, .LeafNode "text", .MsgNode msgB, .ParentNode "if" [.MsgNode msgC]]⟩

/-- Template `plural`: the plural message. -/
def tmplPlural : TemplateNode := ⟨"plural", [.MsgNode msgPlural]⟩

/-- Template `greet`: a single message without plural, whose body is empty. -/
def tmplEmpty : TemplateNode := ⟨"greet", [.MsgNode msgEmpty]⟩

/-- Template `bad`: the rejected message followed by message `A`. -/
def tmplBad : TemplateNode := ⟨"bad", [.MsgNode msgInvalid, .MsgNode msgA]⟩

/-- A template node after the annotation pass with `annotate`. -/
def annotated (t : TemplateNode) : TemplateNode :=
  ⟨t.Name, parsepasses.processChildren annotate t.Body⟩

/-- An extractor at template `plural` with an empty document. -/
def atPlural : xgettext.extractor := ⟨⟨[]⟩, tmplPlural, registryOf [tmplPlural]⟩

/-- An extractor at template `greet` with an empty document. -/
def atEmpty : xgettext.extractor := ⟨⟨[]⟩, tmplEmpty, registryOf [tmplEmpty]⟩

end sample

/-! ## Theorems about `soy.go` -/

open ast soy

theorem qualified_name_inj (nsName a b : String)
    (h : nsName ++ "." ++ a = nsName ++ "." ++ b) : a = b := by
  have h2 := congrArg String.data h
  simp only [String.data_append, List.append_assoc] at h2
  exact String.ext (List.append_cancel_left (List.append_cancel_left h2))

theorem collectTemplates_some (nsName : String) (rest : List Node) (m : TemplateMap) :
    collectTemplates nsName rest ⟨some m⟩ =
      .ok ⟨some (fun key =>
        match spec.registered nsName rest key with
        | some t => some t
        | none => m key)⟩ := by
  induction rest generalizing m with
  | nil => simp [collectTemplates, spec.registered]
  | cons c rest ih =>
    cases c with
    | TemplateNode t =>
      simp only [collectTemplates, ih, spec.registered]
      congr 3
      funext key
      cases spec.registered nsName rest key with
      | some t2 => rfl
      | none =>
        simp only [TemplateMap.set]
        split <;> rfl
    | _ => simp only [collectTemplates, ih, spec.registered]

theorem collectTemplates_nil_map (nsName : String) (rest : List Node) (tofu2 : Tofu)
    (h : collectTemplates nsName rest ⟨none⟩ = .ok tofu2) :
    tofu2 = ⟨none⟩ ∧ ∀ t, Node.TemplateNode t ∉ rest := by
  induction rest with
  | nil =>
    simp only [collectTemplates, Except.ok.injEq] at h
    exact ⟨h.symm, by simp⟩
  | cons c rest ih =>
    cases c with
    | TemplateNode t => simp [collectTemplates] at h
    | _ =>
      simp only [collectTemplates] at h
      obtain ⟨h1, h2⟩ := ih h
      refine ⟨h1, ?_⟩
      intro t ht
      simp only [List.mem_cons] at ht
      rcases ht with ht | ht
      · cases ht
      · exact h2 t ht

theorem registered_mem (nsName : String) (rest : List Node) (key : String) (t : TemplateNode)
    (h : spec.registered nsName rest key = some t) :
    Node.TemplateNode t ∈ rest ∧ key = nsName ++ "." ++ t.Name := by
  induction rest with
  | nil => simp [spec.registered] at h
  | cons c rest ih =>
    cases c with
    | TemplateNode t0 =>
      simp only [spec.registered] at h
      cases hr : spec.registered nsName rest key with
      | some t2 =>
        rw [hr] at h
        simp only [Option.some.injEq] at h
        subst h
        exact ⟨List.mem_cons_of_mem _ (ih hr).1, (ih hr).2⟩
      | none =>
        rw [hr] at h
        simp only at h
        split at h
        · rename_i hk
          simp only [Option.some.injEq] at h
          subst h
          exact ⟨List.mem_cons_self _ _, hk⟩
        · cases h
    | _ =>
      simp only [spec.registered] at h
      exact ⟨List.mem_cons_of_mem _ (ih h).1, (ih h).2⟩

theorem registered_none (nsName : String) (rest : List Node) (key : String)
    (h : ∀ t, Node.TemplateNode t ∈ rest → key ≠ nsName ++ "." ++ t.Name) :
    spec.registered nsName rest key = none := by
  cases hr : spec.registered nsName rest key with
  | none => rfl
  | some t =>
    obtain ⟨h1, h2⟩ := registered_mem nsName rest key t hr
    exact absurd h2 (h t h1)

theorem registered_isSome (nsName : String) (rest : List Node) (t : TemplateNode)
    (h : Node.TemplateNode t ∈ rest) :
    ∃ node, spec.registered nsName rest (nsName ++ "." ++ t.Name) = some node := by
  induction rest with
  | nil => simp at h
  | cons c rest ih =>
    simp only [List.mem_cons] at h
    by_cases hin : Node.TemplateNode t ∈ rest
    · obtain ⟨node, hnode⟩ := ih hin
      refine ⟨node, ?_⟩
      cases c <;> simp [spec.registered, hnode]
    · rcases h with h | h
      · subst h
        cases hr : spec.registered nsName rest (nsName ++ "." ++ t.Name) with
        | some node => exact ⟨node, by simp [spec.registered, hr]⟩
        | none => exact ⟨t, by simp [spec.registered, hr]⟩
      · exact absurd h hin

theorem registered_last (nsName : String) (pre post : List Node) (t : TemplateNode)
    (hlast : ∀ t2, Node.TemplateNode t2 ∈ post → t2.Name ≠ t.Name) :
    spec.registered nsName (pre ++ Node.TemplateNode t :: post) (nsName ++ "." ++ t.Name)
      = some t := by
  have hpost : spec.registered nsName post (nsName ++ "." ++ t.Name) = none := by
    apply registered_none
    intro t2 ht2 hk
    exact hlast t2 ht2 (qualified_name_inj nsName _ _ hk).symm
  induction pre with
  | nil => simp [spec.registered, hpost]
  | cons c pre ih => cases c <;> simp [spec.registered, ih]

/-- C1: when the parsed root node sequence is empty, or its first node is not a
`NamespaceNode`, `Tofu.Parse` returns an error and the `Tofu` (its template
map) is exactly as before the call. -/
theorem Parse_malformed_input_fails (parser : String → Except String (List Node))
    (tofu : Tofu) (input : String) (nodes : List Node)
    (hparse : parser input = .ok nodes)
    (hbad : nodes = [] ∨
      ∃ head rest, nodes = head :: rest ∧ ∀ nsName, head ≠ Node.NamespaceNode nsName) :
    ∃ err, Tofu.Parse parser tofu input = .ok (tofu, some err) := by
  rcases hbad with hnil | ⟨head, rest, hcons, hns⟩
  · subst hnil
    exact ⟨"empty", by simp [Tofu.Parse, hparse]⟩
  · subst hcons
    refine ⟨"input must begin with a namespace declaration", ?_⟩
    cases head with
    | NamespaceNode n => exact absurd rfl (hns n)
    | _ => simp [Tofu.Parse, hparse]

/-- C1, sanity check: the file `"headless"` starts with a template; parsing it
into a `Tofu` that already holds a template returns an error and changes
nothing. -/
theorem Parse_malformed_input_fails_witness :
    ∃ err, Tofu.Parse sample.parser sample.holding "headless" = .ok (sample.holding, some err) :=
  Parse_malformed_input_fails sample.parser sample.holding "headless"
    [.TemplateNode sample.first, .NamespaceNode "ns"] rfl
    (Or.inr ⟨_, _, rfl, fun _ h => Node.noConfusion h⟩)

/-- C2, as stated, fails. The file `"dup"` declares `ns.t` twice: `Parse` returns
no error and `ns.t` is then the second declaration. Parsing `"one"` and then
`"two"`, which both declare `ns.t`, returns no error either, and `ns.t` is then
the declaration of `"two"`. The two declarations differ. -/
theorem Parse_duplicate_counterexample :
    (∃ tofu, Tofu.Parse sample.parser New "dup" = .ok (tofu, none) ∧
      tofu.Template "ns.t" = (⟨some sample.second⟩, true)) ∧
    (∃ tofu1 tofu2, Tofu.Parse sample.parser New "one" = .ok (tofu1, none) ∧
      tofu1.Template "ns.t" = (⟨some sample.first⟩, true) ∧
      Tofu.Parse sample.parser tofu1 "two" = .ok (tofu2, none) ∧
      tofu2.Template "ns.t" = (⟨some sample.second⟩, true)) ∧
    sample.second ≠ sample.first := by
  refine ⟨⟨_, rfl, rfl⟩, ⟨_, _, rfl, rfl, rfl, rfl⟩, ?_⟩
  intro h
  have h2 := congrArg TemplateNodeOf.Body h
  simp [sample.first, sample.second] at h2

/-- C2, amended: on a `Tofu` with an allocated map, registering a template whose
qualified name is already a key (from the map before the call, or from an
earlier template of the same file) does not fail; `Parse` returns no error, and
afterwards the key maps to the last template of the file registered under it. -/
theorem Parse_duplicate_overwrites (parser : String → Except String (List Node))
    (m : TemplateMap) (input nsName : String) (pre post : List Node) (t : TemplateNode)
    (hparse : parser input = .ok (.NamespaceNode nsName :: (pre ++ .TemplateNode t :: post)))
    (hdup : (m (nsName ++ "." ++ t.Name)).isSome = true ∨
      ∃ t0, Node.TemplateNode t0 ∈ pre ∧ t0.Name = t.Name)
    (hlast : ∀ t2, Node.TemplateNode t2 ∈ post → t2.Name ≠ t.Name) :
    ∃ tofu, Tofu.Parse parser ⟨some m⟩ input = .ok (tofu, none) ∧
      tofu.Template (nsName ++ "." ++ t.Name) = (⟨some t⟩, true) := by
  have _ := hdup
  have h1 : Tofu.Parse parser ⟨some m⟩ input =
      .ok (⟨some (fun key =>
        match spec.registered nsName (pre ++ .TemplateNode t :: post) key with
        | some t => some t
        | none => m key)⟩, none) := by
    simp only [Tofu.Parse, hparse, collectTemplates_some]
  exact ⟨_, h1, by simp only [Tofu.Template, registered_last nsName pre post t hlast]⟩

/-- C2 amended, sanity check on the file `"dup"`. -/
theorem Parse_duplicate_overwrites_witness :
    ∃ tofu, Tofu.Parse sample.parser ⟨some (fun _ => none)⟩ "dup" = .ok (tofu, none) ∧
      tofu.Template ("ns" ++ "." ++ sample.second.Name) = (⟨some sample.second⟩, true) :=
  Parse_duplicate_overwrites sample.parser (fun _ => none) "dup" "ns"
    [.TemplateNode sample.first] [] sample.second rfl
    (Or.inr ⟨sample.first, List.mem_cons_self _ _, rfl⟩)
    (fun _ h => absurd h (List.not_mem_nil _))

/-- C3: after a successful `Tofu.Parse` of a file whose first node is a
`NamespaceNode` named `nsName`, every `TemplateNode` `t` among the remaining
nodes is found by `Template (nsName + "." + t.Name)` with `ok = true` and a
template node of that name from this file, and every key that is not
`nsName + "." + name` for a template of this file (so every key when no
remaining node is a template) gives what it gave before the call. -/
theorem Parse_registers_templates (parser : String → Except String (List Node))
    (tofu tofu2 : Tofu) (input nsName : String) (rest : List Node)
    (hparse : parser input = .ok (.NamespaceNode nsName :: rest))
    (hok : Tofu.Parse parser tofu input = .ok (tofu2, none)) :
    (∀ t, Node.TemplateNode t ∈ rest →
      ∃ node, tofu2.Template (nsName ++ "." ++ t.Name) = (⟨some node⟩, true) ∧
        node.Name = t.Name ∧ Node.TemplateNode node ∈ rest) ∧
    (∀ key, (∀ t, Node.TemplateNode t ∈ rest → key ≠ nsName ++ "." ++ t.Name) →
      tofu2.Template key = tofu.Template key) := by
  simp only [Tofu.Parse, hparse] at hok
  obtain ⟨templates⟩ := tofu
  cases templates with
  | none =>
    cases hc : collectTemplates nsName rest ⟨none⟩ with
    | error p => simp [hc] at hok
    | ok tofu3 =>
      simp only [hc, Except.ok.injEq, Prod.mk.injEq, and_true] at hok
      subst hok
      obtain ⟨h1, h2⟩ := collectTemplates_nil_map nsName rest _ hc
      subst h1
      exact ⟨fun t ht => absurd ht (h2 t), fun _ _ => rfl⟩
  | some m =>
    simp only [collectTemplates_some, Except.ok.injEq, Prod.mk.injEq, and_true] at hok
    subst hok
    constructor
    · intro t ht
      obtain ⟨node, hnode⟩ := registered_isSome nsName rest t ht
      obtain ⟨hmem, hkey⟩ := registered_mem nsName rest _ node hnode
      exact ⟨node, by simp only [Tofu.Template, hnode],
        (qualified_name_inj nsName _ _ hkey).symm, hmem⟩
    · intro key hkey
      simp only [Tofu.Template, registered_none nsName rest key hkey]

/-- C3, sanity check on the file `"mixed"` (templates `t` and `u` around a node
that is not a template), parsed into an empty `Tofu`. -/
theorem Parse_registers_templates_witness :
    (∀ t, Node.TemplateNode t ∈
        [Node.TemplateNode sample.first, .LeafNode "doc", .TemplateNode sample.other] →
      ∃ node, sample.afterMixed.Template ("ns" ++ "." ++ t.Name) = (⟨some node⟩, true) ∧
        node.Name = t.Name ∧ Node.TemplateNode node ∈
          [Node.TemplateNode sample.first, .LeafNode "doc", .TemplateNode sample.other]) ∧
    (∀ key, (∀ t, Node.TemplateNode t ∈
        [Node.TemplateNode sample.first, .LeafNode "doc", .TemplateNode sample.other] →
        key ≠ "ns" ++ "." ++ t.Name) →
      sample.afterMixed.Template key = New.Template key) :=
  Parse_registers_templates sample.parser New sample.afterMixed "mixed" "ns" _ rfl rfl

/-! ## Theorems about the extraction walk -/

open xgettext parsepasses

theorem msgNodesOfChildren_eq_flatMap (children : List Node) :
    spec.msgNodesOfChildren children = children.flatMap spec.msgNodes := by
  induction children with
  | nil => rfl
  | cons c cs ih => simp [spec.msgNodesOfChildren, ih]

/-- On a message that passes validation and whose body has a first child,
`extract` appends exactly the catalog entry of the spec. -/
theorem extract_msg_entry (pomsg : Pomsg) (e : extractor) (m : MsgNode)
    (h : spec.Extractable pomsg m) :
    extract pomsg e (.MsgNode m) =
      .ok ⟨e.file.Messages ++ [spec.catalogEntry pomsg e.registry e.tmpl m]⟩ := by
  obtain ⟨hvalid, hbody⟩ := h
  cases hb : m.Body with
  | nil => exact absurd hb hbody
  | cons head rest =>
    cases head <;>
      simp [extract, hvalid, hb, spec.catalogEntry, spec.idReference, String.append_assoc]

theorem extract_msg_not_extractable (pomsg : Pomsg) (e : extractor) (m : MsgNode)
    (h : ¬ spec.Extractable pomsg m) (file : po.File) :
    extract pomsg e (.MsgNode m) ≠ .ok file := by
  intro hok
  apply h
  simp only [extract] at hok
  cases hvalid : pomsg.Validate m with
  | some err => simp [hvalid] at hok
  | none =>
    cases hb : m.Body with
    | nil => simp [hvalid, hb] at hok
    | cons head rest => exact ⟨hvalid, by simp [hb]⟩

mutual
/-- The extraction walk handles exactly the message nodes `spec.msgNodes node`,
in that order, and stops at the first one that ends the process. -/
theorem extract_eq_foldlM (pomsg : Pomsg) : ∀ (node : Node) (e : extractor),
    extract pomsg e node =
      (spec.msgNodes node).foldlM
        (fun file m => extract pomsg ⟨file, e.tmpl, e.registry⟩ (.MsgNode m)) e.file
  | .MsgNode m, e => by
    simp only [spec.msgNodes, List.foldlM_cons, List.foldlM_nil]
    cases extract pomsg e (.MsgNode m) <;> rfl
  | .TemplateNode ⟨_, body⟩, e => by
    simp only [extract, spec.msgNodes]
    exact extractChildren_eq_foldlM pomsg body e
  | .MsgPluralNode _ children, e => by
    simp only [extract, spec.msgNodes]
    exact extractChildren_eq_foldlM pomsg children e
  | .ParentNode _ children, e => by
    simp only [extract, spec.msgNodes]
    exact extractChildren_eq_foldlM pomsg children e
  | .NamespaceNode _, e => by simp [extract, spec.msgNodes]; rfl
  | .LeafNode _, e => by simp [extract, spec.msgNodes]; rfl
theorem extractChildren_eq_foldlM (pomsg : Pomsg) : ∀ (children : List Node) (e : extractor),
    extractChildren pomsg e children =
      (spec.msgNodesOfChildren children).foldlM
        (fun file m => extract pomsg ⟨file, e.tmpl, e.registry⟩ (.MsgNode m)) e.file
  | [], e => by simp [extractChildren, spec.msgNodesOfChildren]; rfl
  | child :: rest, e => by
    simp only [extractChildren, spec.msgNodesOfChildren, List.foldlM_append]
    rw [← extract_eq_foldlM pomsg child e]
    cases extract pomsg e child with
    | error a => rfl
    | ok file => exact extractChildren_eq_foldlM pomsg rest _
end

theorem extractTemplates_eq_foldlM (pomsg : Pomsg) (registry : template.Registry)
    (templates : List template.Template) (file : po.File) :
    extractTemplates pomsg registry file templates =
      (spec.traversal templates).foldlM
        (fun file tm => extract pomsg ⟨file, tm.1, registry⟩ (.MsgNode tm.2)) file := by
  induction templates generalizing file with
  | nil => rfl
  | cons t rest ih =>
    have h := extract_eq_foldlM pomsg (.TemplateNode t.Node) ⟨file, t.Node, registry⟩
    simp only [extractTemplates, spec.traversal, List.flatMap_cons, List.foldlM_append,
      List.foldlM_map] at h ⊢
    rw [← h]
    cases extract pomsg ⟨file, t.Node, registry⟩ (.TemplateNode t.Node) with
    | error a => rfl
    | ok file2 => exact ih file2

theorem foldlM_extract_ok_iff (pomsg : Pomsg) (registry : template.Registry)
    (l : List (TemplateNode × MsgNode)) (file doc : po.File) :
    l.foldlM (fun file tm => extract pomsg ⟨file, tm.1, registry⟩ (.MsgNode tm.2)) file = .ok doc ↔
      (∀ tm ∈ l, spec.Extractable pomsg tm.2) ∧
        doc.Messages = file.Messages ++
          l.map (fun tm => spec.catalogEntry pomsg registry tm.1 tm.2) := by
  induction l generalizing file with
  | nil =>
    simp only [List.foldlM_nil, List.not_mem_nil, false_implies, implies_true, true_and,
      List.map_nil, List.append_nil]
    constructor
    · intro h
      cases h
      rfl
    · intro h
      cases doc
      cases file
      simp only at h
      subst h
      rfl
  | cons tm rest ih =>
    simp only [List.foldlM_cons, List.mem_cons, forall_eq_or_imp, List.map_cons]
    by_cases hx : spec.Extractable pomsg tm.2
    · rw [extract_msg_entry pomsg _ _ hx]
      have hb : ∀ (a : po.File) (f : po.File → Except Abort po.File),
          ((Except.ok a : Except Abort po.File) >>= f) = f a := fun _ _ => rfl
      rw [hb, ih]
      simp [hx, List.append_assoc]
    · constructor
      · intro h
        exfalso
        cases hex : extract pomsg ⟨file, tm.1, registry⟩ (.MsgNode tm.2) with
        | error a =>
          rw [hex] at h
          cases h
        | ok f => exact extract_msg_not_extractable pomsg _ _ hx f hex
      · intro h
        exact absurd h.1.1 hx

theorem foldlM_extract_stops (pomsg : Pomsg) (registry : template.Registry)
    (pre post : List (TemplateNode × MsgNode)) (t : TemplateNode) (m : MsgNode)
    (err : String) (file : po.File)
    (hpre : ∀ tm ∈ pre, spec.Extractable pomsg tm.2)
    (hinvalid : pomsg.Validate m = some err) :
    (pre ++ (t, m) :: post).foldlM
      (fun file tm => extract pomsg ⟨file, tm.1, registry⟩ (.MsgNode tm.2)) file
      = .error (.exit err) := by
  induction pre generalizing file with
  | nil =>
    simp only [List.nil_append, List.foldlM_cons, extract, hinvalid]
    rfl
  | cons tm rest ih =>
    simp only [List.cons_append, List.foldlM_cons]
    rw [extract_msg_entry pomsg _ _ (hpre tm (List.mem_cons_self _ _))]
    exact ih _ (fun x hx => hpre x (List.mem_cons_of_mem _ hx))

/-- C4: for a message that passes validation, the second reference of the
entry that `extract` appends is `id=<ID> var=<VarName>` when the first child of
the body is a `MsgPluralNode` with variable `VarName`, and `id=<ID>` with nothing
after the number when the first child is not a plural node. -/
theorem extract_id_reference (pomsg : Pomsg) (e : extractor) (m : MsgNode)
    (head : Node) (rest : List Node)
    (hvalid : pomsg.Validate m = none) (hbody : m.Body = head :: rest) :
    ∃ entry, extract pomsg e (.MsgNode m) = .ok ⟨e.file.Messages ++ [entry]⟩ ∧
      (∀ VarName children, head = .MsgPluralNode VarName children →
        entry.Comment.References[1]? = some ("id=" ++ toString m.ID ++ " var=" ++ VarName)) ∧
      ((∀ VarName children, head ≠ .MsgPluralNode VarName children) →
        entry.Comment.References[1]? = some ("id=" ++ toString m.ID)) := by
  refine ⟨_, extract_msg_entry pomsg e m ⟨hvalid, by simp [hbody]⟩, ?_, ?_⟩
  · intro VarName children hhead
    subst hhead
    simp [spec.catalogEntry, spec.idReference, hbody]
  · intro hhead
    cases head with
    | MsgPluralNode v cs => exact absurd rfl (hhead v cs)
    | _ => simp [spec.catalogEntry, spec.idReference, hbody]

/-- C4, sanity check: the plural message with id 7 over `count` gets the
reference `id=7 var=count`. -/
theorem extract_id_reference_witness :
    ∃ entry, extract sample.pomsg sample.atPlural (.MsgNode sample.msgPlural)
        = .ok ⟨sample.atPlural.file.Messages ++ [entry]⟩ ∧
      (∀ VarName children,
        Node.MsgPluralNode "count" [.LeafNode "one", .LeafNode "many"]
          = .MsgPluralNode VarName children →
        entry.Comment.References[1]? = some ("id=" ++ toString 7 ++ " var=" ++ VarName)) ∧
      ((∀ VarName children,
        Node.MsgPluralNode "count" [.LeafNode "one", .LeafNode "many"]
          ≠ .MsgPluralNode VarName children) →
        entry.Comment.References[1]? = some ("id=" ++ toString 7)) :=
  extract_id_reference sample.pomsg sample.atPlural sample.msgPlural _ [] rfl rfl

theorem traversal_map_catalogEntry (pomsg : Pomsg) (registry : template.Registry)
    (templates : List template.Template) :
    (spec.traversal templates).map (fun tm => spec.catalogEntry pomsg registry tm.1 tm.2) =
      templates.flatMap (fun t =>
        (spec.msgNodes (.TemplateNode t.Node)).map
          (fun m => spec.catalogEntry pomsg registry t.Node m)) := by
  induction templates with
  | nil => rfl
  | cons t rest ih =>
    simp only [spec.traversal, List.flatMap_cons, List.map_append, List.map_map] at ih ⊢
    rw [ih]
    rfl

/-- C5: the loop of `main` ends with a document exactly when every message of
the traversal can be extracted, and the document is then the entries already
present followed by the entries of the messages in traversal order: templates
in the order of `registry.Templates`, within a template depth-first pre-order
(`spec.msgNodes`: the messages of the first child's subtree, then those of the
second child's, and so on). For `main`, which starts from the empty document
and the annotated registry, the document written is that concatenation. -/
theorem extractTemplates_document (pomsg : Pomsg) (registry : template.Registry)
    (file doc : po.File) (templates : List template.Template)
    (SetPlaceholdersAndID : MsgNode → MsgNode) :
    (extractTemplates pomsg registry file templates = .ok doc ↔
      (∀ tm ∈ spec.traversal templates, spec.Extractable pomsg tm.2) ∧
        doc.Messages = file.Messages ++
          templates.flatMap (fun t =>
            (spec.msgNodes (.TemplateNode t.Node)).map
              (fun m => spec.catalogEntry pomsg registry t.Node m))) ∧
    (main pomsg SetPlaceholdersAndID registry = .ok doc ↔
      (∀ tm ∈ spec.traversal (ProcessMessages SetPlaceholdersAndID registry).Templates,
          spec.Extractable pomsg tm.2) ∧
        doc.Messages =
          (ProcessMessages SetPlaceholdersAndID registry).Templates.flatMap (fun t =>
            (spec.msgNodes (.TemplateNode t.Node)).map
              (fun m => spec.catalogEntry pomsg
                (ProcessMessages SetPlaceholdersAndID registry) t.Node m))) := by
  constructor
  · rw [extractTemplates_eq_foldlM, foldlM_extract_ok_iff, traversal_map_catalogEntry]
  · simp only [main]
    rw [extractTemplates_eq_foldlM, foldlM_extract_ok_iff, traversal_map_catalogEntry]
    simp only [List.nil_append]

/-- C5, sanity check: template `abc` holds the sibling messages `A`, `B`, `C` in
source order (`B` with a message inside its body, `C` below an `if`); after an
annotation pass the document holds their three entries in that order. -/
theorem main_three_siblings :
    (main sample.pomsg sample.annotate (sample.registryOf [sample.tmplABC])).map
        (fun doc => doc.Messages.map fun entry => (entry.Id, entry.Comment.References))
      = .ok [("A", ["app.soy:3", "id=101"]), ("B", ["app.soy:3", "id=102"]),
          ("C", ["app.soy:3", "id=103"])] := by
  rfl

/-- C6 fails on the code: template `greet` holds a single message without
plural whose body has no children; validation passes, and the run ends in an
index-out-of-range panic instead of a document of one entry. -/
theorem main_single_empty_message_panics :
    sample.pomsg.Validate (sample.annotate sample.msgEmpty) = none ∧
    main sample.pomsg sample.annotate (sample.registryOf [sample.tmplEmpty])
      = .error .indexOutOfRange := by
  exact ⟨rfl, rfl⟩

/-- C9 fails on the code: on a message that passes validation and whose body has
no children, the reference of the spec is `id=0`, but `extract` does not give
`pluralVar` the empty value; the lookup of the first child is an
index-out-of-range panic and no entry is appended. -/
theorem extract_empty_body_index_out_of_range :
    sample.pomsg.Validate sample.msgEmpty = none ∧
    sample.msgEmpty.Body = [] ∧
    spec.idReference sample.msgEmpty = "id=0" ∧
    extract sample.pomsg sample.atEmpty (.MsgNode sample.msgEmpty) = .error .indexOutOfRange := by
  exact ⟨rfl, rfl, by decide, rfl⟩

/-- C8: when the traversal reaches a message on which `Validate` fails with
`err` (every message before it in traversal order was extracted: it passes
validation and its body has a first child), the run ends there with `err`. The
result of `main` is that error: no document is handed to `WriteTo`, neither with
the entries of the earlier messages nor with any later one. -/
theorem main_stops_at_first_invalid (pomsg : Pomsg)
    (SetPlaceholdersAndID : MsgNode → MsgNode) (registry : template.Registry)
    (pre post : List (TemplateNode × MsgNode)) (t : TemplateNode) (m : MsgNode) (err : String)
    (htraversal : spec.traversal (ProcessMessages SetPlaceholdersAndID registry).Templates
      = pre ++ (t, m) :: post)
    (hpre : ∀ tm ∈ pre, spec.Extractable pomsg tm.2)
    (hinvalid : pomsg.Validate m = some err) :
    main pomsg SetPlaceholdersAndID registry = .error (.exit err) := by
  simp only [main]
  rw [extractTemplates_eq_foldlM, htraversal]
  exact foldlM_extract_stops pomsg _ pre post t m err _ hpre hinvalid

/-- C8, sanity check: templates `plural` and `bad`; the plural message is
extracted, the first message of `bad` is rejected, message `A` follows it. The
run ends with the validation error. -/
theorem main_stops_at_first_invalid_witness :
    main sample.pomsg sample.annotate (sample.registryOf [sample.tmplPlural, sample.tmplBad])
      = .error (.exit "plural node must be the sole child") :=
  main_stops_at_first_invalid sample.pomsg sample.annotate
    (sample.registryOf [sample.tmplPlural, sample.tmplBad])
    [(sample.annotated sample.tmplPlural, sample.annotate sample.msgPlural)]
    [(sample.annotated sample.tmplBad, sample.annotate sample.msgA)]
    (sample.annotated sample.tmplBad) (sample.annotate sample.msgInvalid)
    "plural node must be the sole child"
    rfl
    (by
      intro tm htm
      simp only [List.mem_singleton] at htm
      subst htm
      exact ⟨rfl, by simp [sample.annotate, sample.msgPlural]⟩)
    rfl

/-! ## Theorems about the annotation walk -/

theorem msgNode_eq_of_fields (a b : MsgNode) (hid : a.ID = b.ID)
    (hmeaning : a.Meaning = b.Meaning) (hdesc : a.Desc = b.Desc)
    (hplaceholders : a.Placeholders = b.Placeholders) (hbody : a.Body = b.Body) : a = b := by
  cases a
  cases b
  simp only at hid hmeaning hdesc hplaceholders hbody
  subst hid hmeaning hdesc hplaceholders hbody
  rfl

mutual
theorem processTemplateMsgs_idem (S : MsgNode → MsgNode) (hS : ∀ m, S (S m) = S m) :
    ∀ node : Node, processTemplateMsgs S (processTemplateMsgs S node) = processTemplateMsgs S node
  | .MsgNode m => by simp only [processTemplateMsgs, hS]
  | .TemplateNode ⟨_, body⟩ => by
    simp only [processTemplateMsgs, processChildren_idem S hS body]
  | .MsgPluralNode _ children => by
    simp only [processTemplateMsgs, processChildren_idem S hS children]
  | .ParentNode _ children => by
    simp only [processTemplateMsgs, processChildren_idem S hS children]
  | .NamespaceNode _ => by simp only [processTemplateMsgs]
  | .LeafNode _ => by simp only [processTemplateMsgs]
theorem processChildren_idem (S : MsgNode → MsgNode) (hS : ∀ m, S (S m) = S m) :
    ∀ children : List Node, processChildren S (processChildren S children) = processChildren S children
  | [] => by simp only [processChildren]
  | child :: rest => by
    simp only [processChildren, processTemplateMsgs_idem S hS child,
      processChildren_idem S hS rest]
end

mutual
/-- The annotation walk applies the id/placeholder algorithm to exactly the
message nodes `spec.msgNodes node`, in that order. -/
theorem msgNodes_processTemplateMsgs (S : MsgNode → MsgNode) :
    ∀ node : Node, spec.msgNodes (processTemplateMsgs S node) = (spec.msgNodes node).map S
  | .MsgNode m => by simp only [processTemplateMsgs, spec.msgNodes, List.map_cons, List.map_nil]
  | .TemplateNode ⟨_, body⟩ => by
    simp only [processTemplateMsgs, spec.msgNodes, msgNodes_processChildren S body]
  | .MsgPluralNode _ children => by
    simp only [processTemplateMsgs, spec.msgNodes, msgNodes_processChildren S children]
  | .ParentNode _ children => by
    simp only [processTemplateMsgs, spec.msgNodes, msgNodes_processChildren S children]
  | .NamespaceNode _ => by simp only [processTemplateMsgs, spec.msgNodes, List.map_nil]
  | .LeafNode _ => by simp only [processTemplateMsgs, spec.msgNodes, List.map_nil]
theorem msgNodes_processChildren (S : MsgNode → MsgNode) :
    ∀ children : List Node,
      spec.msgNodesOfChildren (processChildren S children)
        = (spec.msgNodesOfChildren children).map S
  | [] => by simp only [processChildren, spec.msgNodesOfChildren, List.map_nil]
  | child :: rest => by
    simp only [processChildren, spec.msgNodesOfChildren, List.map_append,
      msgNodes_processTemplateMsgs S child, msgNodes_processChildren S rest]
end

theorem ProcessMessages_eq (S : MsgNode → MsgNode) (reg : template.Registry) :
    ProcessMessages S reg =
      { reg with
        Templates := reg.Templates.map fun t => ⟨⟨t.Node.Name, processChildren S t.Node.Body⟩⟩ } := by
  simp only [ProcessMessages]
  congr 1

/-- C7: when the id/placeholder algorithm writes only the id and the placeholder
map, and both are a function of the rest of the message node (meaning,
description, body), running `ProcessMessages` a second time changes nothing:
the registry, and with it every message node, its id and its placeholder map,
is the same after the second run as after the first. -/
theorem ProcessMessages_idempotent (SetPlaceholdersAndID : MsgNode → MsgNode)
    (hfields : ∀ m, (SetPlaceholdersAndID m).Meaning = m.Meaning ∧
      (SetPlaceholdersAndID m).Desc = m.Desc ∧ (SetPlaceholdersAndID m).Body = m.Body)
    (hdeterministic : ∀ m m2 : MsgNode,
      m.Meaning = m2.Meaning → m.Desc = m2.Desc → m.Body = m2.Body →
      (SetPlaceholdersAndID m).ID = (SetPlaceholdersAndID m2).ID ∧
        (SetPlaceholdersAndID m).Placeholders = (SetPlaceholdersAndID m2).Placeholders)
    (reg : template.Registry) :
    ProcessMessages SetPlaceholdersAndID (ProcessMessages SetPlaceholdersAndID reg)
      = ProcessMessages SetPlaceholdersAndID reg := by
  have hS : ∀ m, SetPlaceholdersAndID (SetPlaceholdersAndID m) = SetPlaceholdersAndID m := by
    intro m
    obtain ⟨h1, h2, h3⟩ := hfields m
    obtain ⟨h4, h5, h6⟩ := hfields (SetPlaceholdersAndID m)
    obtain ⟨h7, h8⟩ := hdeterministic (SetPlaceholdersAndID m) m h1 h2 h3
    exact msgNode_eq_of_fields _ _ h7 h4 h5 h8 h6
  rw [ProcessMessages_eq, ProcessMessages_eq]
  simp only [List.map_map]
  congr 1
  apply List.map_congr_left
  intro t _
  simp only [Function.comp, processChildren_idem SetPlaceholdersAndID hS]

/-- C7, sanity check with the algorithm `sample.annotate` on a registry of two
templates. -/
theorem ProcessMessages_idempotent_witness :
    ProcessMessages sample.annotate
        (ProcessMessages sample.annotate (sample.registryOf [sample.tmplABC, sample.tmplPlural]))
      = ProcessMessages sample.annotate (sample.registryOf [sample.tmplABC, sample.tmplPlural]) :=
  ProcessMessages_idempotent sample.annotate
    (fun _ => ⟨rfl, rfl, rfl⟩)
    (fun m m2 _ hdesc _ => ⟨by simp only [sample.annotate, hdesc], rfl⟩)
    (sample.registryOf [sample.tmplABC, sample.tmplPlural])

/-- C10: for every tree, both walks handle the message nodes `spec.msgNodes node`
(those reachable through parent-capable nodes without passing through another
message node) in that order. The annotation walk turns a message node `m` into
`SetPlaceholdersAndID m` and does not walk its children; the messages of the
annotated tree are the images of the messages of the tree, in order. The
extraction walk of the annotated tree processes exactly these images in order
(up to the first one that ends the process), a message node counting once
whatever its body holds. When the extraction returns, the appended entries are
the entries of the annotated messages in order, each with the id the annotation
set, and their number is the number of annotated messages. -/
theorem annotation_and_extraction_walks_agree (pomsg : Pomsg)
    (SetPlaceholdersAndID : MsgNode → MsgNode) (e : extractor) (node : Node) :
    spec.msgNodes (processTemplateMsgs SetPlaceholdersAndID node)
      = (spec.msgNodes node).map SetPlaceholdersAndID ∧
    (∀ m, processTemplateMsgs SetPlaceholdersAndID (.MsgNode m)
        = .MsgNode (SetPlaceholdersAndID m) ∧
      spec.msgNodes (.MsgNode m) = [m]) ∧
    extract pomsg e (processTemplateMsgs SetPlaceholdersAndID node)
      = ((spec.msgNodes node).map SetPlaceholdersAndID).foldlM
          (fun file m => extract pomsg ⟨file, e.tmpl, e.registry⟩ (.MsgNode m)) e.file ∧
    (∀ doc, extract pomsg e (processTemplateMsgs SetPlaceholdersAndID node) = .ok doc →
      doc.Messages = e.file.Messages ++ (spec.msgNodes node).map
          (fun m => spec.catalogEntry pomsg e.registry e.tmpl (SetPlaceholdersAndID m)) ∧
        (∀ i (h : i < (spec.msgNodes node).length),
          (doc.Messages[e.file.Messages.length + i]?).bind (fun entry => entry.Comment.References[1]?)
            = some (spec.idReference (SetPlaceholdersAndID ((spec.msgNodes node).get ⟨i, h⟩)))) ∧
        doc.Messages.length = e.file.Messages.length + (spec.msgNodes node).length) := by
  have hwalk := extract_eq_foldlM pomsg (processTemplateMsgs SetPlaceholdersAndID node) e
  rw [msgNodes_processTemplateMsgs] at hwalk
  refine ⟨msgNodes_processTemplateMsgs _ node, fun m => ⟨by simp only [processTemplateMsgs],
    by simp only [spec.msgNodes]⟩, hwalk, ?_⟩
  intro doc hdoc
  rw [hwalk] at hdoc
  have hpairs := (foldlM_extract_ok_iff pomsg e.registry
    (((spec.msgNodes node).map SetPlaceholdersAndID).map fun m => (e.tmpl, m)) e.file doc).mp
    (by rw [List.foldlM_map]; exact hdoc)
  have hmsgs : doc.Messages = e.file.Messages ++ (spec.msgNodes node).map
      (fun m => spec.catalogEntry pomsg e.registry e.tmpl (SetPlaceholdersAndID m)) := by
    rw [hpairs.2]
    simp only [List.map_map]
    rfl
  refine ⟨hmsgs, ?_, by rw [hmsgs]; simp⟩
  intro i hi
  rw [hmsgs, List.getElem?_append_right (Nat.le_add_right _ _)]
  simp [List.getElem?_map, List.getElem?_eq_getElem hi, spec.catalogEntry]

end Soy
